import Mathlib

/-!
Verification development for devmoji-rs: a tool that rewrites the first
line of a conventional-commit message by inserting the emoji that
corresponds to its type code.

The repository ships the npm packaging layer (`npm/devmoji-rs/bin/cli.js`,
`npm/devmoji-rs/index.js`, the TypeScript declaration file) in source form;
the Rust core engine (parser, emoji table, rewriter, config resolver) is
distributed only as prebuilt binaries, so its behaviour is modelled here
from the specification's own description, as noted on each definition.
Strings are modelled as `List Char`, so every operation is executable and
character-level reasoning is by structural induction.
-/

namespace Devmoji

/-- Characters of a string; all core text is modelled at this level. -/
abbrev Chars := List Char

/-- Modelled from the spec: the type-code character class of the
conventional-commit header grammar — one or more characters that are not a
space, `(`, `:` or `!`. -/
def isTypeChar (c : Char) : Bool :=
  !(c == ' ' || c == '(' || c == ':' || c == '!')

/-- Modelled from the spec: a parsed conventional-commit header, with the
type code, the optional scope, the breaking-change marker and the
description taken verbatim. -/
structure Header where
  type : Chars
  scope : Option Chars
  breaking : Bool
  description : Chars
  deriving DecidableEq, Repr

/-- Modelled from the spec: after type and optional scope, an optional `!`
marker, then the mandatory `:` followed by the mandatory single space; the
remainder of the line is the description. -/
def parseBangColon : Chars → Option (Bool × Chars)
  | '!' :: ':' :: ' ' :: d => some (true, d)
  | ':' :: ' ' :: d => some (false, d)
  | _ => none

/-- Modelled from the spec: the part of the header after the type code — an
optional `(scope)` where the scope is any text not containing `)` (an
unmatched `(` is a parse failure), then the `!`/`:`/space tail. -/
def parseAfterType : Chars → Option (Option Chars × Bool × Chars)
  | [] => none
  | c :: r =>
    if c = '(' then
      match r.dropWhile (fun x => !(x == ')')) with
      | ')' :: r2 =>
        (parseBangColon r2).map fun bd => (some (r.takeWhile (fun x => !(x == ')'))), bd.1, bd.2)
      | _ => none
    else (parseBangColon (c :: r)).map fun bd => (none, bd.1, bd.2)

/-- Modelled from the spec: ConventionalCommitParser — given one line of
text, produce either a parsed header or `none` (NoMatch). An empty type is
`NoMatch`. -/
def parseHeader (line : Chars) : Option Header :=
  if line.takeWhile isTypeChar = [] then none
  else
    match parseAfterType (line.dropWhile isTypeChar) with
    | some (sc, b, d) => some ⟨line.takeWhile isTypeChar, sc, b, d⟩
    | none => none

/-- Scope rendering used when a header is re-emitted. -/
def scopePart : Option Chars → Chars
  | some s => '(' :: (s ++ [')'])
  | none => []

/-- Breaking-change marker rendering used when a header is re-emitted. -/
def bangPart (b : Bool) : Chars := if b then ['!'] else []

/-- Modelled from the spec: lossless re-emission of a header as
`type(scope)!: description`. -/
def emitHeader (ty : Chars) (sc : Option Chars) (b : Bool) (d : Chars) : Chars :=
  ty ++ scopePart sc ++ bangPart b ++ ':' :: ' ' :: d

/-- Character class used to split a message at its first line break. -/
def notNL (c : Char) : Bool := !(c == '\n')

/-- Modelled from the spec: the header line of a message — everything
before the first line break. -/
def headerOf (m : Chars) : Chars := m.takeWhile notNL

/-- Modelled from the spec: the body of a message — everything from the
first line break on, reattached verbatim after the rewrite. -/
def bodyOf (m : Chars) : Chars := m.dropWhile notNL

/-- Modelled from the spec: one row of the merged EmojiTable — a code
mapped to its resolved glyph (if any) and description. -/
structure TableRow where
  code : Chars
  glyph : Option Chars
  description : Option Chars
  deriving DecidableEq, Repr

/-- Case-sensitive exact-match lookup of a code in the merged table. -/
def lookupRow (t : List TableRow) (code : Chars) : Option TableRow :=
  t.find? (fun r => r.code == code)

/-- Modelled from the spec: CommitRewriter.rewrite — split the message at
its first line break, parse the header; on NoMatch or an unknown type
return the message unchanged; on a known type without a glyph re-emit the
header losslessly; on a known type with a glyph insert the glyph and one
space before the description unless the description already begins with
that glyph followed by one space. The body is reattached untouched. -/
def rewrite (t : List TableRow) (m : Chars) : Chars :=
  match parseHeader (headerOf m) with
  | none => m
  | some h =>
    match lookupRow t h.type with
    | none => m
    | some row =>
      match row.glyph with
      | none => emitHeader h.type h.scope h.breaking h.description ++ bodyOf m
      | some g =>
        if List.isPrefixOf (g ++ [' ']) h.description then m
        else emitHeader h.type h.scope h.breaking (g ++ ' ' :: h.description) ++ bodyOf m

/-- Characters of a string literal, used to build concrete inputs. -/
def str (s : String) : Chars := s.toList

/-- Embedded from src/unnamed/part_000 (DevmojiEntry): a devmoji config
entry — the code, an optional GitHub emoji shortcode, an optional gitmoji
code and an optional description. -/
structure DevmojiEntry where
  code : Chars
  emoji : Option Chars
  gitmoji : Option Chars
  description : Option Chars
  deriving DecidableEq, Repr

/-- Embedded from src/unnamed/part_000 (DevmojiConfig): additional
conventional commit types, and custom devmoji entries that override a
default with the same code. -/
structure DevmojiConfig where
  types : List Chars
  devmoji : List DevmojiEntry
  deriving DecidableEq, Repr

/-- Modelled from the spec: the github-emoji-shortcode table through which
an `emoji` field is resolved. The spec fixes only that `sparkles` is the
canon glyph for `feat` (the sparkles scenario); the remaining rows are the
shortcodes the built-in entries use plus `saluting_face` from the spec's
config scenario. -/
def githubEmojiTable : List (Chars × Chars) :=
  [(str "sparkles", str "✨"), (str "bug", str "🐛"), (str "books", str "📚"),
   (str "art", str "🎨"), (str "recycle", str "♻️"), (str "zap", str "⚡"),
   (str "white_check_mark", str "✅"), (str "wrench", str "🔧"),
   (str "package", str "📦"), (str "construction_worker", str "👷"),
   (str "saluting_face", str "🫡")]

/-- Modelled from the spec: resolving a GitHub emoji shortcode fails closed
to the shortcode text itself when unknown — it never errors. -/
def resolveGithubEmoji (s : Chars) : Chars :=
  match githubEmojiTable.find? (fun p => p.1 == s) with
  | some p => p.2
  | none => s

/-- Modelled from the spec: GitmojiResolver's fixed, bundled
shortcode-to-glyph table (the spec pins only `construction`). -/
def gitmojiTable : List (Chars × Chars) :=
  [(str "construction", str "🚧"), (str "fire", str "🔥"), (str "tada", str "🎉")]

/-- Modelled from the spec: GitmojiResolver.resolve — `none` (not found)
on an unrecognized gitmoji code. -/
def gitmojiResolve (s : Chars) : Option Chars :=
  (gitmojiTable.find? (fun p => p.1 == s)).map (fun p => p.2)

/-- Modelled from the spec: glyph resolution for a table entry — `emoji`
first (through the github shortcode table, falling back to the shortcode
text), else `gitmoji` (through GitmojiResolver, absent when not found),
else no glyph. -/
def resolveEntry (e : DevmojiEntry) : Option Chars :=
  match e.emoji with
  | some s => some (resolveGithubEmoji s)
  | none =>
    match e.gitmoji with
    | some g => gitmojiResolve g
    | none => none

/-- Modelled from the spec: the fixed built-in set of ten conventional
types, each with a canonical emoji shortcode. -/
def defaultEntries : List DevmojiEntry :=
  [⟨str "feat", some (str "sparkles"), none, some (str "a new feature")⟩,
   ⟨str "fix", some (str "bug"), none, some (str "a bug fix")⟩,
   ⟨str "docs", some (str "books"), none, some (str "documentation only changes")⟩,
   ⟨str "style", some (str "art"), none, some (str "formatting changes")⟩,
   ⟨str "refactor", some (str "recycle"), none, some (str "a code refactoring")⟩,
   ⟨str "perf", some (str "zap"), none, some (str "a performance improvement")⟩,
   ⟨str "test", some (str "white_check_mark"), none, some (str "adding tests")⟩,
   ⟨str "chore", some (str "wrench"), none, some (str "chores")⟩,
   ⟨str "build", some (str "package"), none, some (str "build changes")⟩,
   ⟨str "ci", some (str "construction_worker"), none, some (str "ci changes")⟩]

/-- Case-sensitive exact-match lookup of a code among entries. -/
def lookupEntry (t : List DevmojiEntry) (c : Chars) : Option DevmojiEntry :=
  t.find? (fun e => e.code == c)

/-- Modelled from the spec: applying one config `devmoji` entry to the
table — a code already present has its row fully replaced by the entry (no
field-level merge); a code not yet present is appended as a new row. -/
def applyEntry (t : List DevmojiEntry) (e : DevmojiEntry) : List DevmojiEntry :=
  if t.any (fun r => r.code == e.code) then
    t.map (fun r => if r.code == e.code then e else r)
  else t ++ [e]

/-- Modelled from the spec: the merged table — built-ins first, then
`Config.types` codes not already present added with no emoji, then the
config `devmoji` entries applied in order. -/
def mergeConfig (cfg : DevmojiConfig) : List DevmojiEntry :=
  let base := defaultEntries ++
    (cfg.types.filter
      (fun ty => !((defaultEntries.any fun r => r.code == ty)))).map
      (fun ty => ⟨ty, none, none, none⟩)
  cfg.devmoji.foldl applyEntry base

/-- Modelled from the spec: the EmojiTable rows the rewriter consumes —
each merged entry with its glyph resolved. -/
def resolveTable (t : List DevmojiEntry) : List TableRow :=
  t.map (fun e => ⟨e.code, resolveEntry e, e.description⟩)

/-- Modelled from the spec: the built-in-only Config returned when no
config file is discovered. -/
def builtinConfig : DevmojiConfig := ⟨[], []⟩

/-- Embedded from npm/devmoji-rs/index.js: defineDevmojiConfig returns its
argument — an identity function that only provides TypeScript
autocompletion. -/
def defineDevmojiConfig (config : DevmojiConfig) : DevmojiConfig := config

/-- Modelled from the spec: the config filenames probed at each directory
level, in fixed priority order. -/
def configCandidates : List String :=
  ["devmoji.config.json", "devmoji.config.js", "devmoji.config.mjs",
   "devmoji.config.ts", "devmoji.config.mts"]

/-- Modelled from the spec: the first candidate filename, in priority
order, that exists in one directory (a directory is its list of
filenames). -/
def findCandidate (dir : List String) : Option String :=
  configCandidates.find? (fun c => dir.contains c)

/-- Modelled from the spec: ConfigResolver's upward walk — the ancestor
directories are listed nearest first; the first level with any matching
candidate wins. -/
def discover : List (List String) → Option String
  | [] => none
  | d :: rest =>
    match findCandidate d with
    | some f => some f
    | none => discover rest

/-- Modelled from the spec: the ConfigError taxonomy for config
resolution. -/
inductive ConfigError where
  | malformedJson
  | malformedShape
  | evalFailed
  | evalTimeout
  deriving DecidableEq, Repr

/-- Modelled from the spec: config resolution — no discovered file yields
the built-in-only Config (not an error); a discovered file is handed to
the swappable evaluator, whose failure aborts resolution with its
ConfigError. -/
def loadConfigResult (dirs : List (List String))
    (evalFile : String → Except ConfigError DevmojiConfig) :
    Except ConfigError DevmojiConfig :=
  match discover dirs with
  | none => Except.ok builtinConfig
  | some f => evalFile f

/-- Modelled from the spec: the observable outcome of one process
invocation — the exit code, what was written to standard output, and the
error reported on standard error. -/
structure ProcessOutcome where
  exitCode : Nat
  stdoutText : Option Chars
  stderrText : Option ConfigError
  deriving DecidableEq, Repr

/-- Modelled from the spec: the streaming (stdin-to-stdout) invocation — a
ConfigError is fatal (exit 1, printed to standard error, no output
written); otherwise the rewritten message is written and the process exits
0. -/
def runPipe (dirs : List (List String))
    (evalFile : String → Except ConfigError DevmojiConfig) (input : Chars) :
    ProcessOutcome :=
  match loadConfigResult dirs evalFile with
  | Except.error e => ⟨1, none, some e⟩
  | Except.ok cfg => ⟨0, some (rewrite (resolveTable (mergeConfig cfg)) input), none⟩

/-- Embedded from npm/devmoji-rs/bin/cli.js: the possible values of
`err.status` on the error execFileSync throws — a numeric exit code, null
(the child was killed by a signal), or undefined (the error is not a child
exit at all, e.g. binary resolution failed). -/
inductive JsStatus where
  | num (n : Nat)
  | nullv
  | undef
  deriving DecidableEq, Repr

/-- Embedded from npm/devmoji-rs/bin/cli.js: how one run of a child
process ends. -/
inductive ChildOutcome where
  | exited (code : Nat)
  | signaled
  deriving DecidableEq, Repr

/-- Observable behaviour of one shim invocation: the argument vector
passed to the child (none when no child was spawned) and the shim's own
exit code. -/
structure ShimRun where
  argsPassed : Option (List String)
  exitCode : Nat
  deriving DecidableEq, Repr

/-- Embedded from npm/devmoji-rs/bin/cli.js lines 70-76 (ESM catch block):
`typeof err.status === "number"` exits with that status; otherwise the
message is printed and the shim exits 1. -/
def esmCatchExit : JsStatus → Nat
  | JsStatus.num n => n
  | JsStatus.nullv => 1
  | JsStatus.undef => 1

/-- Embedded from npm/devmoji-rs/bin/cli.js lines 135-141 (CJS catch
block): `err.status !== undefined` exits with `process.exit(err.status)`
— for a null status Node treats the exit code as 0; only an undefined
status prints the message and exits 1. -/
def cjsCatchExit : JsStatus → Nat
  | JsStatus.num n => n
  | JsStatus.nullv => 0
  | JsStatus.undef => 1

/-- Embedded from npm/devmoji-rs/bin/cli.js lines 67-76 (ESM main): resolve
the binary (a thrown resolution error carries an undefined status), then
execFileSync it on `process.argv.slice(2)`; a child exiting 0 returns
normally, a nonzero exit throws with that numeric status, a signal kill
throws with a null status. -/
def esmShim (binary : Option String) (argv : List String)
    (child : String → List String → ChildOutcome) : ShimRun :=
  match binary with
  | none => ⟨none, esmCatchExit JsStatus.undef⟩
  | some b =>
    match child b (argv.drop 2) with
    | ChildOutcome.exited 0 => ⟨some (argv.drop 2), 0⟩
    | ChildOutcome.exited (n + 1) => ⟨some (argv.drop 2), esmCatchExit (JsStatus.num (n + 1))⟩
    | ChildOutcome.signaled => ⟨some (argv.drop 2), esmCatchExit JsStatus.nullv⟩

/-- Embedded from npm/devmoji-rs/bin/cli.js lines 132-141 (CJS main): the
same flow as the ESM shim but with the CJS catch block. -/
def cjsShim (binary : Option String) (argv : List String)
    (child : String → List String → ChildOutcome) : ShimRun :=
  match binary with
  | none => ⟨none, cjsCatchExit JsStatus.undef⟩
  | some b =>
    match child b (argv.drop 2) with
    | ChildOutcome.exited 0 => ⟨some (argv.drop 2), 0⟩
    | ChildOutcome.exited (n + 1) => ⟨some (argv.drop 2), cjsCatchExit (JsStatus.num (n + 1))⟩
    | ChildOutcome.signaled => ⟨some (argv.drop 2), cjsCatchExit JsStatus.nullv⟩

/-- Embedded from npm/devmoji-rs/bin/cli.js lines 12-19 (ESM PLATFORMS):
platform keys mapped to the scoped platform package names. -/
def platformsEsm : List (String × String) :=
  [("darwin-arm64", "@loukotal/devmoji-rs-darwin-arm64"),
   ("darwin-x64", "@loukotal/devmoji-rs-darwin-x64"),
   ("linux-x64-gnu", "@loukotal/devmoji-rs-linux-x64-gnu"),
   ("linux-x64-musl", "@loukotal/devmoji-rs-linux-x64-musl"),
   ("linux-arm64-gnu", "@loukotal/devmoji-rs-linux-arm64-gnu"),
   ("win32-x64", "@loukotal/devmoji-rs-win32-x64")]

/-- Embedded from npm/devmoji-rs/bin/cli.js lines 82-89 (CJS PLATFORMS):
the same platform keys, but mapped to unscoped package names. -/
def platformsCjs : List (String × String) :=
  [("darwin-arm64", "devmoji-rs-darwin-arm64"),
   ("darwin-x64", "devmoji-rs-darwin-x64"),
   ("linux-x64-gnu", "devmoji-rs-linux-x64-gnu"),
   ("linux-x64-musl", "devmoji-rs-linux-x64-musl"),
   ("linux-arm64-gnu", "devmoji-rs-linux-arm64-gnu"),
   ("win32-x64", "devmoji-rs-win32-x64")]

/-- Lookup of a platform key in a PLATFORMS map. -/
def lookupPlatform (ps : List (String × String)) (k : String) : Option String :=
  (ps.find? (fun p => p.1 == k)).map (fun p => p.2)

/-- Embedded from npm/devmoji-rs/bin/cli.js: one
`require.resolve(pkg/package.json)` attempt inside try/catch —
`resolvable` abstracts whether node resolution succeeds for a package
name, `pkgDir` the directory it resolves to; on success the binary path is
`join(dir, "bin", binaryName)`. -/
def tryResolve (resolvable : String → Bool) (pkgDir : String → String)
    (pkg binaryName : String) : Option String :=
  if resolvable pkg then some (pkgDir pkg ++ "/bin/" ++ binaryName) else none

/-- Embedded from npm/devmoji-rs/bin/cli.js lines 27-40: the linux loop —
try each candidate key in order; an unknown key or a failed resolution
falls through to the next candidate. -/
def tryCandidateList (ps : List (String × String)) (resolvable : String → Bool)
    (pkgDir : String → String) (binaryName : String) : List String → Option String
  | [] => none
  | c :: rest =>
    match lookupPlatform ps c with
    | some pkg =>
      match tryResolve resolvable pkgDir pkg binaryName with
      | some p => some p
      | none => tryCandidateList ps resolvable pkgDir binaryName rest
    | none => tryCandidateList ps resolvable pkgDir binaryName rest

/-- Embedded from npm/devmoji-rs/bin/cli.js lines 21-65 (ESM
getBinaryPath): on linux try the musl then the gnu package, otherwise the
single platform-arch package; if nothing resolves, fall back to a binary
next to the script when it exists; `none` models the thrown
unsupported-platform error. -/
def getBinaryPathEsm (platform arch : String) (resolvable : String → Bool)
    (pkgDir : String → String) (localExists : Bool) (dirName : String) : Option String :=
  let binaryName := if platform == "win32" then "devmoji.exe" else "devmoji"
  let fromPlatform :=
    if platform == "linux" then
      tryCandidateList platformsEsm resolvable pkgDir binaryName
        [platform ++ "-" ++ arch ++ "-musl", platform ++ "-" ++ arch ++ "-gnu"]
    else
      match lookupPlatform platformsEsm (platform ++ "-" ++ arch) with
      | some pkg => tryResolve resolvable pkgDir pkg binaryName
      | none => none
  match fromPlatform with
  | some p => some p
  | none => if localExists then some (dirName ++ "/" ++ binaryName) else none

/-- Embedded from npm/devmoji-rs/bin/cli.js lines 91-130 (CJS
getBinaryPath): the same platform dispatch as the ESM variant but over the
unscoped package names, and with no local-binary fallback. -/
def getBinaryPathCjs (platform arch : String) (resolvable : String → Bool)
    (pkgDir : String → String) : Option String :=
  let binaryName := if platform == "win32" then "devmoji.exe" else "devmoji"
  if platform == "linux" then
    tryCandidateList platformsCjs resolvable pkgDir binaryName
      [platform ++ "-" ++ arch ++ "-musl", platform ++ "-" ++ arch ++ "-gnu"]
  else
    match lookupPlatform platformsCjs (platform ++ "-" ++ arch) with
    | some pkg => tryResolve resolvable pkgDir pkg binaryName
    | none => none

theorem takeWhile_append_all {p : Char → Bool} {l₁ : Chars} (l₂ : Chars)
    (h : ∀ c ∈ l₁, p c = true) :
    (l₁ ++ l₂).takeWhile p = l₁ ++ l₂.takeWhile p := by
  induction l₁ with
  | nil => simp
  | cons a t ih =>
    have ha := h a (List.mem_cons_self a t)
    have iht := ih fun c hc => h c (List.mem_cons_of_mem a hc)
    simp [List.takeWhile_cons, ha, iht]

theorem dropWhile_append_all {p : Char → Bool} {l₁ : Chars} (l₂ : Chars)
    (h : ∀ c ∈ l₁, p c = true) :
    (l₁ ++ l₂).dropWhile p = l₂.dropWhile p := by
  induction l₁ with
  | nil => simp
  | cons a t ih =>
    have ha := h a (List.mem_cons_self a t)
    have iht := ih fun c hc => h c (List.mem_cons_of_mem a hc)
    simp [List.dropWhile_cons, ha, iht]

theorem parseBangColon_shape {rest : Chars} {b : Bool} {d : Chars}
    (h : parseBangColon rest = some (b, d)) :
    rest = bangPart b ++ ':' :: ' ' :: d := by
  unfold parseBangColon at h
  split at h
  · cases h; rfl
  · cases h; rfl
  · cases h

theorem parseAfterType_shape {rest : Chars} {sc : Option Chars} {b : Bool} {d : Chars}
    (h : parseAfterType rest = some (sc, b, d)) :
    rest = scopePart sc ++ bangPart b ++ ':' :: ' ' :: d ∧
      ∀ s, sc = some s → ∀ c ∈ s, (c == ')') = false := by
  cases rest with
  | nil => exact Option.noConfusion h
  | cons c r =>
    by_cases hc : c = '('
    · subst hc
      simp only [parseAfterType] at h
      rw [if_pos trivial] at h
      split at h
      case _ =>
        rename_i r2 heq2
        rcases Option.map_eq_some'.mp h with ⟨⟨b', d'⟩, hbc, hval⟩
        cases hval
        have hr : r = r.takeWhile (fun x => !(x == ')')) ++ (')' :: r2) := by
          conv_lhs => rw [← List.takeWhile_append_dropWhile (p := fun x => !(x == ')')) (l := r)]
          rw [heq2]
        constructor
        · rw [parseBangColon_shape hbc] at hr
          conv_lhs => rw [hr]
          simp [scopePart]
        · intro s hs x hx
          cases hs
          have := List.mem_takeWhile_imp hx
          simpa using this
      case _ => exact Option.noConfusion h
    · simp only [parseAfterType, if_neg hc] at h
      rcases Option.map_eq_some'.mp h with ⟨⟨b', d'⟩, hbc, hval⟩
      cases hval
      refine ⟨?_, fun s hs => Option.noConfusion hs⟩
      rw [parseBangColon_shape hbc]
      simp [scopePart]

/-- Facts recovered from a successful parse: the line is exactly the
lossless re-emission of the parsed fields, the type is a nonempty run of
type characters, and the scope contains no closing bracket. -/
theorem parseHeader_facts {line : Chars} {h : Header}
    (hp : parseHeader line = some h) :
    line = emitHeader h.type h.scope h.breaking h.description ∧
      h.type ≠ [] ∧ (∀ c ∈ h.type, isTypeChar c = true) ∧
      ∀ s, h.scope = some s → ∀ c ∈ s, (c == ')') = false := by
  unfold parseHeader at hp
  split at hp
  · exact Option.noConfusion hp
  case isFalse hne =>
    split at hp
    case h_2 => exact Option.noConfusion hp
    case h_1 sc b d heq =>
      cases hp
      obtain ⟨hshape, hscope⟩ := parseAfterType_shape heq
      refine ⟨?_, hne, fun c hc => List.mem_takeWhile_imp hc, hscope⟩
      conv_lhs => rw [← List.takeWhile_append_dropWhile (p := isTypeChar) (l := line)]
      rw [hshape]
      simp [emitHeader]

/-- Round trip: re-emitting parsed-shaped fields and parsing again yields
exactly those fields, for an arbitrary description. -/
theorem parseHeader_emitHeader (ty : Chars) (sc : Option Chars) (b : Bool) (d : Chars)
    (hne : ty ≠ []) (hty : ∀ c ∈ ty, isTypeChar c = true)
    (hsc : ∀ s, sc = some s → ∀ c ∈ s, (c == ')') = false) :
    parseHeader (emitHeader ty sc b d) = some ⟨ty, sc, b, d⟩ := by
  have hsplit :
      (emitHeader ty sc b d).takeWhile isTypeChar = ty ∧
      (emitHeader ty sc b d).dropWhile isTypeChar =
        scopePart sc ++ bangPart b ++ ':' :: ' ' :: d := by
    unfold emitHeader
    rw [show ty ++ scopePart sc ++ bangPart b ++ ':' :: ' ' :: d =
      ty ++ (scopePart sc ++ bangPart b ++ ':' :: ' ' :: d) by simp]
    rw [takeWhile_append_all _ hty, dropWhile_append_all _ hty]
    cases sc <;> cases b <;>
      simp [scopePart, bangPart, List.takeWhile_cons, List.dropWhile_cons, isTypeChar]
  have hafter : parseAfterType (scopePart sc ++ bangPart b ++ ':' :: ' ' :: d) =
      some (sc, b, d) := by
    cases sc with
    | none =>
      cases b <;> simp [scopePart, bangPart, parseAfterType, parseBangColon]
    | some s =>
      have hs : ∀ c ∈ s, (fun x => !(x == ')')) c = true := by
        intro c hc
        simp [hsc s rfl c hc]
      have hlist : ∀ tail : Chars, scopePart (some s) ++ bangPart b ++ ':' :: ' ' :: tail =
          '(' :: (s ++ ')' :: (bangPart b ++ ':' :: ' ' :: tail)) := by
        intro tail
        cases b <;> simp [scopePart, bangPart]
      rw [hlist d]
      simp only [parseAfterType, if_pos rfl]
      rw [dropWhile_append_all _ hs, takeWhile_append_all _ hs]
      cases b <;>
        simp [bangPart, parseBangColon, List.dropWhile_cons, List.takeWhile_cons]
  unfold parseHeader
  rw [hsplit.1, hsplit.2, if_neg hne, hafter]

theorem all_append {p : Char → Bool} {l₁ l₂ : Chars}
    (h₁ : ∀ c ∈ l₁, p c = true) (h₂ : ∀ c ∈ l₂, p c = true) :
    ∀ c ∈ l₁ ++ l₂, p c = true := by
  intro c hc
  rcases List.mem_append.mp hc with h | h
  · exact h₁ c h
  · exact h₂ c h

theorem emitHeader_notNL {ty : Chars} {sc : Option Chars} {b : Bool} {d : Chars}
    (h1 : ∀ c ∈ ty, notNL c = true)
    (h2 : ∀ s, sc = some s → ∀ c ∈ s, notNL c = true)
    (h3 : ∀ c ∈ d, notNL c = true) :
    ∀ c ∈ emitHeader ty sc b d, notNL c = true := by
  have hscope : ∀ c ∈ scopePart sc, notNL c = true := by
    cases sc with
    | none => intro c hc; exact absurd hc (List.not_mem_nil c)
    | some s =>
      intro c hc
      rcases List.mem_cons.mp hc with h | h
      · subst h; decide
      · rcases List.mem_append.mp h with h | h
        · exact h2 s rfl c h
        · rcases List.mem_singleton.mp h with rfl; decide
  have hbang : ∀ c ∈ bangPart b, notNL c = true := by
    cases b with
    | false => intro c hc; exact absurd hc (List.not_mem_nil c)
    | true => intro c hc; rcases List.mem_singleton.mp hc with rfl; decide
  have htail : ∀ c ∈ ':' :: ' ' :: d, notNL c = true := by
    intro c hc
    rcases List.mem_cons.mp hc with h | h
    · subst h; decide
    · rcases List.mem_cons.mp h with h | h
      · subst h; decide
      · exact h3 c h
  exact all_append (all_append (all_append h1 hscope) hbang) htail

theorem parsed_notNL {m : Chars} {h : Header}
    (hp : parseHeader (headerOf m) = some h) :
    (∀ c ∈ h.type, notNL c = true) ∧
      (∀ s, h.scope = some s → ∀ c ∈ s, notNL c = true) ∧
      ∀ c ∈ h.description, notNL c = true := by
  have hall : ∀ c ∈ headerOf m, notNL c = true :=
    fun c hc => List.mem_takeWhile_imp hc
  have hemit := (parseHeader_facts hp).1
  rw [hemit] at hall
  unfold emitHeader at hall
  refine ⟨fun c hc => hall c ?_, fun s hs c hc => hall c ?_, fun c hc => hall c ?_⟩
  · exact List.mem_append_left _ (List.mem_append_left _ (List.mem_append_left _ hc))
  · refine List.mem_append_left _ (List.mem_append_left _ (List.mem_append_right _ ?_))
    rw [hs]
    exact List.mem_cons_of_mem _ (List.mem_append_left _ hc)
  · exact List.mem_append_right _ (List.mem_cons_of_mem _ (List.mem_cons_of_mem _ hc))

theorem bodyOf_shape (m : Chars) : bodyOf m = [] ∨ ∃ r, bodyOf m = '\n' :: r := by
  unfold bodyOf
  induction m with
  | nil => exact Or.inl rfl
  | cons a t ih =>
    rw [List.dropWhile_cons]
    split
    · exact ih
    · rename_i hna
      right
      refine ⟨t, ?_⟩
      have hb : (a == '\n') = true := by
        unfold notNL at hna
        simpa using hna
      rw [show a = '\n' from eq_of_beq hb]

theorem headerOf_append_bodyOf {x : Chars} (m : Chars)
    (hx : ∀ c ∈ x, notNL c = true) :
    headerOf (x ++ bodyOf m) = x ∧ bodyOf (x ++ bodyOf m) = bodyOf m := by
  constructor
  · show (x ++ bodyOf m).takeWhile notNL = x
    rw [takeWhile_append_all _ hx]
    rcases bodyOf_shape m with h0 | ⟨r, h0⟩ <;> rw [h0] <;>
      simp [List.takeWhile_cons, notNL]
  · show (x ++ bodyOf m).dropWhile notNL = bodyOf m
    rw [dropWhile_append_all _ hx]
    rcases bodyOf_shape m with h0 | ⟨r, h0⟩ <;> rw [h0] <;>
      simp [List.dropWhile_cons, notNL]

theorem rewrite_of_none {t : List TableRow} {m : Chars}
    (hp : parseHeader (headerOf m) = none) : rewrite t m = m := by
  unfold rewrite
  rw [hp]

theorem rewrite_of_noLookup {t : List TableRow} {m : Chars} {h : Header}
    (hp : parseHeader (headerOf m) = some h) (hl : lookupRow t h.type = none) :
    rewrite t m = m := by
  unfold rewrite
  rw [hp]
  simp only [hl]

theorem rewrite_of_noGlyph {t : List TableRow} {m : Chars} {h : Header} {row : TableRow}
    (hp : parseHeader (headerOf m) = some h) (hl : lookupRow t h.type = some row)
    (hg : row.glyph = none) :
    rewrite t m = emitHeader h.type h.scope h.breaking h.description ++ bodyOf m := by
  unfold rewrite
  rw [hp]
  simp only [hl, hg]

theorem rewrite_of_glyph_pre {t : List TableRow} {m : Chars} {h : Header}
    {row : TableRow} {g : Chars}
    (hp : parseHeader (headerOf m) = some h) (hl : lookupRow t h.type = some row)
    (hg : row.glyph = some g)
    (hpre : List.isPrefixOf (g ++ [' ']) h.description = true) :
    rewrite t m = m := by
  unfold rewrite
  rw [hp]
  simp only [hl, hg, hpre, if_true]

theorem rewrite_of_glyph {t : List TableRow} {m : Chars} {h : Header}
    {row : TableRow} {g : Chars}
    (hp : parseHeader (headerOf m) = some h) (hl : lookupRow t h.type = some row)
    (hg : row.glyph = some g)
    (hpre : List.isPrefixOf (g ++ [' ']) h.description = false) :
    rewrite t m =
      emitHeader h.type h.scope h.breaking (g ++ ' ' :: h.description) ++ bodyOf m := by
  unfold rewrite
  rw [hp]
  simp only [hl, hg, hpre]
  simp

theorem rewrite_of_noGlyph_self {t : List TableRow} {m : Chars} {h : Header}
    {row : TableRow}
    (hp : parseHeader (headerOf m) = some h) (hl : lookupRow t h.type = some row)
    (hg : row.glyph = none) : rewrite t m = m := by
  rw [rewrite_of_noGlyph hp hl hg, ← (parseHeader_facts hp).1]
  exact List.takeWhile_append_dropWhile notNL m

theorem rewrite_fixpoint_of_glyph {t : List TableRow} {m : Chars} {h : Header}
    {row : TableRow} {g : Chars}
    (hp : parseHeader (headerOf m) = some h) (hl : lookupRow t h.type = some row)
    (hg : row.glyph = some g) (hgnl : ∀ c ∈ g, notNL c = true) :
    rewrite t (emitHeader h.type h.scope h.breaking (g ++ ' ' :: h.description) ++ bodyOf m)
      = emitHeader h.type h.scope h.breaking (g ++ ' ' :: h.description) ++ bodyOf m := by
  obtain ⟨hemit, hne, hty, hsc⟩ := parseHeader_facts hp
  obtain ⟨tynl, scnl, dnl⟩ := parsed_notNL hp
  have hdnl : ∀ c ∈ g ++ ' ' :: h.description, notNL c = true := by
    refine all_append hgnl ?_
    intro c hc
    rcases List.mem_cons.mp hc with h0 | h0
    · subst h0; decide
    · exact dnl c h0
  have hx : ∀ c ∈ emitHeader h.type h.scope h.breaking (g ++ ' ' :: h.description),
      notNL c = true := emitHeader_notNL tynl scnl hdnl
  obtain ⟨hh, hb⟩ := headerOf_append_bodyOf m hx
  have hp2 : parseHeader
      (headerOf (emitHeader h.type h.scope h.breaking (g ++ ' ' :: h.description) ++ bodyOf m))
      = some ⟨h.type, h.scope, h.breaking, g ++ ' ' :: h.description⟩ := by
    rw [hh]
    exact parseHeader_emitHeader _ _ _ _ hne hty hsc
  have hpre : List.isPrefixOf (g ++ [' ']) (g ++ ' ' :: h.description) = true := by
    rw [List.isPrefixOf_iff_prefix]
    rw [show g ++ ' ' :: h.description = (g ++ [' ']) ++ h.description by simp]
    exact List.prefix_append _ _
  exact rewrite_of_glyph_pre hp2 hl hg hpre

/-- C1 (amended): for every message, whenever the emoji table's resolved
glyphs all contain no line-break character, applying
CommitRewriter.rewrite twice gives the same result as applying it once;
and, unconditionally for every table, when the parsed description already
begins with the exact resolved glyph followed by one space, rewrite
returns the message unchanged. -/
theorem rewrite_idempotent (t : List TableRow) (m : Chars) :
    ((∀ r ∈ t, ∀ c ∈ r.glyph.getD [], notNL c = true) →
      rewrite t (rewrite t m) = rewrite t m) ∧
      ∀ h row g, parseHeader (headerOf m) = some h → lookupRow t h.type = some row →
        row.glyph = some g → List.isPrefixOf (g ++ [' ']) h.description = true →
        rewrite t m = m := by
  constructor
  · intro hglyphs
    cases hp : parseHeader (headerOf m) with
    | none =>
      rw [rewrite_of_none hp]
      exact rewrite_of_none hp
    | some h =>
      cases hl : lookupRow t h.type with
      | none =>
        have e := rewrite_of_noLookup hp hl
        rw [e]
        exact e
      | some row =>
        cases hg : row.glyph with
        | none =>
          have e := rewrite_of_noGlyph_self hp hl hg
          rw [e]
          exact e
        | some g =>
          by_cases hpre : List.isPrefixOf (g ++ [' ']) h.description = true
          · have e := rewrite_of_glyph_pre hp hl hg hpre
            rw [e]
            exact e
          · have hpre' : List.isPrefixOf (g ++ [' ']) h.description = false :=
              Bool.eq_false_iff.mpr hpre
            rw [rewrite_of_glyph hp hl hg hpre']
            have hrow : row ∈ t := List.mem_of_find?_eq_some hl
            have hgnl : ∀ c ∈ g, notNL c = true := by
              have hr := hglyphs row hrow
              rw [hg] at hr
              simpa using hr
            exact rewrite_fixpoint_of_glyph hp hl hg hgnl
  · intro h row g hp hl hg hpre
    exact rewrite_of_glyph_pre hp hl hg hpre

theorem rewrite_idempotent_witness :
    rewrite [⟨str "feat", some (str "✨"), none⟩]
        (rewrite [⟨str "feat", some (str "✨"), none⟩] (str "feat: hi"))
      = rewrite [⟨str "feat", some (str "✨"), none⟩] (str "feat: hi") :=
  (rewrite_idempotent [⟨str "feat", some (str "✨"), none⟩] (str "feat: hi")).1 (by decide)

/-- C1 counterexample: a merged table can resolve a glyph that contains a
line break (an unknown emoji shortcode falls back to its own text), and on
such a table rewrite is not idempotent: the inserted glyph's line break
moves part of the header into the body, so a second pass inserts the glyph
again. -/
theorem rewrite_idempotent_cex :
    rewrite (resolveTable (mergeConfig ⟨[], [⟨str "feat", some ['x', '\n', 'y'], none, none⟩]⟩))
        (rewrite (resolveTable (mergeConfig ⟨[], [⟨str "feat", some ['x', '\n', 'y'], none, none⟩]⟩))
          (str "feat: hi"))
      ≠ rewrite (resolveTable (mergeConfig ⟨[], [⟨str "feat", some ['x', '\n', 'y'], none, none⟩]⟩))
          (str "feat: hi") := by
  decide

/-- C3: a message whose first line does not match the header grammar, and a
message whose parsed type code is absent from the table, are both returned
byte-identical (rewrite is total — neither case is an error). -/
theorem rewrite_passthrough (t : List TableRow) (m : Chars) :
    (parseHeader (headerOf m) = none → rewrite t m = m) ∧
      ∀ h, parseHeader (headerOf m) = some h → lookupRow t h.type = none →
        rewrite t m = m :=
  ⟨fun hp => rewrite_of_none hp, fun _ hp hl => rewrite_of_noLookup hp hl⟩

/-- C4 (amended): when every resolved glyph of the table contains no
line-break character, everything from the input's first line break on is
byte-identical between the input and the output of rewrite — the body is
never inspected or altered. -/
theorem rewrite_preserves_body (t : List TableRow) (m : Chars)
    (hglyphs : ∀ r ∈ t, ∀ c ∈ r.glyph.getD [], notNL c = true) :
    bodyOf (rewrite t m) = bodyOf m := by
  cases hp : parseHeader (headerOf m) with
  | none => rw [rewrite_of_none hp]
  | some h =>
    cases hl : lookupRow t h.type with
    | none => rw [rewrite_of_noLookup hp hl]
    | some row =>
      cases hg : row.glyph with
      | none => rw [rewrite_of_noGlyph_self hp hl hg]
      | some g =>
        by_cases hpre : List.isPrefixOf (g ++ [' ']) h.description = true
        · rw [rewrite_of_glyph_pre hp hl hg hpre]
        · have hpre' : List.isPrefixOf (g ++ [' ']) h.description = false :=
            Bool.eq_false_iff.mpr hpre
          rw [rewrite_of_glyph hp hl hg hpre']
          obtain ⟨tynl, scnl, dnl⟩ := parsed_notNL hp
          have hrow : row ∈ t := List.mem_of_find?_eq_some hl
          have hgnl : ∀ c ∈ g, notNL c = true := by
            have hr := hglyphs row hrow
            rw [hg] at hr
            simpa using hr
          have hdnl : ∀ c ∈ g ++ ' ' :: h.description, notNL c = true := by
            refine all_append hgnl ?_
            intro c hc
            rcases List.mem_cons.mp hc with h0 | h0
            · subst h0; decide
            · exact dnl c h0
          exact (headerOf_append_bodyOf m (emitHeader_notNL tynl scnl hdnl)).2

theorem rewrite_preserves_body_witness :
    bodyOf (rewrite [⟨str "feat", some (str "✨"), none⟩] (str "feat: a\nbody line"))
      = bodyOf (str "feat: a\nbody line") :=
  rewrite_preserves_body [⟨str "feat", some (str "✨"), none⟩] (str "feat: a\nbody line")
    (by decide)

/-- C4 counterexample: with a merged table whose glyph for `feat` contains
a line break, rewriting the multi-line message `feat: hi` + line break +
`body` gains a line the input never had, so the lines after the first
differ between input and output. -/
theorem rewrite_preserves_body_cex :
    bodyOf (rewrite (resolveTable (mergeConfig
        ⟨[], [⟨str "feat", some ['x', '\n', 'y'], none, none⟩]⟩)) (str "feat: hi\nbody"))
      ≠ bodyOf (str "feat: hi\nbody") := by
  decide

theorem find_map_replace (t : List DevmojiEntry) (e : DevmojiEntry)
    (hany : (t.any fun r => r.code == e.code) = true) :
    (t.map (fun r => if r.code == e.code then e else r)).find?
      (fun r => r.code == e.code) = some e := by
  induction t with
  | nil => simp at hany
  | cons a t ih =>
    simp only [List.map_cons]
    by_cases ha : (a.code == e.code) = true
    · rw [if_pos ha]
      exact List.find?_cons_of_pos _ (beq_self_eq_true e.code)
    · rw [if_neg ha]
      rw [List.find?_cons_of_neg _ (by simpa using ha)]
      refine ih ?_
      simp only [List.any_cons] at hany
      rcases (Bool.or_eq_true _ _).mp hany with h | h
      · exact absurd h ha
      · exact h

theorem lookupEntry_applyEntry (t : List DevmojiEntry) (e : DevmojiEntry) :
    lookupEntry (applyEntry t e) e.code = some e := by
  unfold applyEntry lookupEntry
  by_cases hany : (t.any fun r => r.code == e.code) = true
  · rw [if_pos hany]
    exact find_map_replace t e hany
  · rw [if_neg hany]
    have hnone : t.find? (fun r => r.code == e.code) = none := by
      rw [List.find?_eq_none]
      intro x hx
      have hx2 := List.any_eq_false.mp (Bool.eq_false_iff.mpr hany) x hx
      simpa using hx2
    rw [List.find?_append, hnone]
    simp [List.find?_cons, beq_self_eq_true]

/-- C2: applying a config devmoji entry to the table — the row under the
entry's code is afterwards exactly the config entry (full replacement, no
field-level merge), the resolved EmojiTable row under that code takes both
glyph and description from the config entry alone, and an entry whose code
is not yet present is appended as a new row. -/
theorem merge_override_full (t : List DevmojiEntry) (e : DevmojiEntry) :
    lookupEntry (applyEntry t e) e.code = some e ∧
      lookupRow (resolveTable (applyEntry t e)) e.code =
        some ⟨e.code, resolveEntry e, e.description⟩ ∧
      ((t.any fun r => r.code == e.code) = false → applyEntry t e = t ++ [e]) := by
  have h1 := lookupEntry_applyEntry t e
  refine ⟨h1, ?_, ?_⟩
  · unfold lookupRow resolveTable
    rw [List.find?_map]
    have hcomp : ((fun (r : TableRow) => r.code == e.code) ∘
        (fun en : DevmojiEntry => (⟨en.code, resolveEntry en, en.description⟩ : TableRow))) =
        fun en : DevmojiEntry => en.code == e.code := rfl
    rw [hcomp]
    have h1' : (applyEntry t e).find? (fun en => en.code == e.code) = some e := h1
    rw [h1']
    rfl
  · intro h0
    unfold applyEntry
    rw [if_neg (by simp [h0])]

/-- C5: glyph resolution order for a table entry — a set `emoji` field
always resolves through the github-shortcode table (so `emoji` wins over
`gitmoji` whenever both are set), an unknown shortcode falls back to the
shortcode text itself (never an error), an entry with only `gitmoji`
resolves through GitmojiResolver's fixed table, and an entry with neither
carries no glyph. -/
theorem resolveEntry_order (e : DevmojiEntry) :
    (∀ s, e.emoji = some s → resolveEntry e = some (resolveGithubEmoji s)) ∧
      (∀ s, e.emoji = some s →
        (githubEmojiTable.find? fun p => p.1 == s) = none → resolveEntry e = some s) ∧
      (e.emoji = none → ∀ g, e.gitmoji = some g → resolveEntry e = gitmojiResolve g) ∧
      (e.emoji = none → e.gitmoji = none → resolveEntry e = none) := by
  refine ⟨?_, ?_, ?_, ?_⟩
  · intro s hs
    unfold resolveEntry
    rw [hs]
  · intro s hs hf
    have h1 : resolveEntry e = some (resolveGithubEmoji s) := by
      unfold resolveEntry
      rw [hs]
    rw [h1]
    unfold resolveGithubEmoji
    rw [hf]
  · intro h0 g hg
    unfold resolveEntry
    rw [h0, hg]
  · intro h0 h1
    unfold resolveEntry
    rw [h0, h1]

/-- C6: config discovery — with every nearer ancestor directory matching no
candidate, the walk settles at the first directory with any match, taking
its first candidate in priority order (so `devmoji.config.json` is
preferred over `devmoji.config.js` in the same directory); when no
directory matches, resolution yields the built-in-only Config, not an
error. -/
theorem discover_nearest_priority :
    (∀ pre d suf, (∀ x ∈ pre, findCandidate x = none) →
      discover (pre ++ d :: suf) =
        match findCandidate d with
        | some f => some f
        | none => discover suf) ∧
      (∀ dir : List String, dir.contains "devmoji.config.json" = true →
        findCandidate dir = some "devmoji.config.json") ∧
      ∀ dirs evalFile, discover dirs = none →
        loadConfigResult dirs evalFile = Except.ok builtinConfig := by
  refine ⟨?_, ?_, ?_⟩
  · intro pre d suf hpre
    induction pre with
    | nil => rfl
    | cons a p ih =>
      have ha : findCandidate a = none := hpre a (List.mem_cons_self a p)
      have ih' := ih fun x hx => hpre x (List.mem_cons_of_mem a hx)
      show discover (a :: (p ++ d :: suf)) = _
      rw [show discover (a :: (p ++ d :: suf)) =
        (match findCandidate a with
         | some f => some f
         | none => discover (p ++ d :: suf)) from rfl]
      rw [ha]
      exact ih'
  · intro dir hc
    show configCandidates.find? (fun c => dir.contains c) = some "devmoji.config.json"
    rw [show configCandidates = "devmoji.config.json" ::
      ["devmoji.config.js", "devmoji.config.mjs", "devmoji.config.ts", "devmoji.config.mts"]
      from rfl]
    exact List.find?_cons_of_pos _ hc
  · intro dirs evalFile h0
    unfold loadConfigResult
    rw [h0]

/-- C7: a discovered config source whose evaluation fails aborts config
resolution with that ConfigError — the process exits 1, the error goes to
standard error, nothing is written to standard output, and the result is
never silently the built-in default. -/
theorem configError_aborts (dirs : List (List String))
    (evalFile : String → Except ConfigError DevmojiConfig) (f : String)
    (e : ConfigError) (input : Chars)
    (hdisc : discover dirs = some f) (heval : evalFile f = Except.error e) :
    loadConfigResult dirs evalFile = Except.error e ∧
      runPipe dirs evalFile input = ⟨1, none, some e⟩ := by
  have h1 : loadConfigResult dirs evalFile = Except.error e := by
    have h0 : loadConfigResult dirs evalFile = evalFile f := by
      unfold loadConfigResult
      rw [hdisc]
    rw [h0, heval]
  refine ⟨h1, ?_⟩
  unfold runPipe
  rw [h1]

theorem configError_aborts_witness :
    loadConfigResult [["devmoji.config.json"]]
        (fun _ => Except.error ConfigError.malformedJson) =
      Except.error ConfigError.malformedJson ∧
      runPipe [["devmoji.config.json"]]
          (fun _ => Except.error ConfigError.malformedJson) (str "feat: hi") =
        ⟨1, none, some ConfigError.malformedJson⟩ :=
  configError_aborts [["devmoji.config.json"]]
    (fun _ => Except.error ConfigError.malformedJson) "devmoji.config.json"
    ConfigError.malformedJson (str "feat: hi") (by decide) rfl

/-- C8: both shim variants pass exactly `process.argv.slice(2)` to the
resolved child binary, and when the child exits with a numeric exit code
the shim's own exit code equals the child's code unmodified (the message
itself is never parsed or rewritten by the shim). -/
theorem shim_forwards (b : String) (argv : List String)
    (child : String → List String → ChildOutcome) (n : Nat)
    (hchild : child b (argv.drop 2) = ChildOutcome.exited n) :
    esmShim (some b) argv child = ⟨some (argv.drop 2), n⟩ ∧
      cjsShim (some b) argv child = ⟨some (argv.drop 2), n⟩ := by
  constructor
  · have h1 : esmShim (some b) argv child =
        (match child b (argv.drop 2) with
         | ChildOutcome.exited 0 => ⟨some (argv.drop 2), 0⟩
         | ChildOutcome.exited (k + 1) =>
           ⟨some (argv.drop 2), esmCatchExit (JsStatus.num (k + 1))⟩
         | ChildOutcome.signaled =>
           ⟨some (argv.drop 2), esmCatchExit JsStatus.nullv⟩) := rfl
    rw [h1, hchild]
    cases n with
    | zero => rfl
    | succ k => rfl
  · have h1 : cjsShim (some b) argv child =
        (match child b (argv.drop 2) with
         | ChildOutcome.exited 0 => ⟨some (argv.drop 2), 0⟩
         | ChildOutcome.exited (k + 1) =>
           ⟨some (argv.drop 2), cjsCatchExit (JsStatus.num (k + 1))⟩
         | ChildOutcome.signaled =>
           ⟨some (argv.drop 2), cjsCatchExit JsStatus.nullv⟩) := rfl
    rw [h1, hchild]
    cases n with
    | zero => rfl
    | succ k => rfl

theorem shim_forwards_witness :
    esmShim (some "bin") ["node", "cli.js", "--list", "x"]
        (fun _ _ => ChildOutcome.exited 3) = ⟨some ["--list", "x"], 3⟩ ∧
      cjsShim (some "bin") ["node", "cli.js", "--list", "x"]
          (fun _ _ => ChildOutcome.exited 3) = ⟨some ["--list", "x"], 3⟩ :=
  shim_forwards "bin" ["node", "cli.js", "--list", "x"]
    (fun _ _ => ChildOutcome.exited 3) 3 rfl

/-- C10: defineDevmojiConfig is the identity function, so wrapping a config
in it never alters the Config that evaluation (and the subsequent merge)
produces. -/
theorem defineDevmojiConfig_id (c : DevmojiConfig) :
    defineDevmojiConfig c = c ∧
      mergeConfig (defineDevmojiConfig c) = mergeConfig c :=
  ⟨rfl, rfl⟩

theorem platformsEsm_eq :
    platformsEsm = platformsCjs.map (fun p => (p.1, "@loukotal/" ++ p.2)) := by
  decide

theorem lookupPlatform_map_scoped (l : List (String × String)) (k : String) :
    lookupPlatform (l.map fun p => (p.1, "@loukotal/" ++ p.2)) k =
      (lookupPlatform l k).map (fun s => "@loukotal/" ++ s) := by
  induction l with
  | nil => rfl
  | cons a t ih =>
    by_cases h : (a.1 == k) = true
    · simp [lookupPlatform, List.find?_cons, h]
    · have h' : (a.1 == k) = false := Bool.eq_false_iff.mpr h
      simp only [lookupPlatform, List.map_cons, List.find?_cons, h']
      simpa [lookupPlatform] using ih

theorem lookupPlatform_scoped (k : String) :
    lookupPlatform platformsEsm k =
      (lookupPlatform platformsCjs k).map (fun s => "@loukotal/" ++ s) := by
  rw [platformsEsm_eq]
  exact lookupPlatform_map_scoped platformsCjs k

/-- C9 counterexample: the two shim variants are not behaviorally
equivalent — with package resolution succeeding exactly for the scoped
darwin-arm64 package (the name the published packages carry) and no local
binary, the ESM variant resolves a binary path while the CJS variant
fails; and on a signal-killed child (null status) the ESM shim exits 1
while the CJS shim exits 0. -/
theorem shims_equivalent_cex :
    getBinaryPathEsm "darwin" "arm64"
        (fun r => r == "@loukotal/devmoji-rs-darwin-arm64")
        (fun _ => "PKG") false "DIR" = some "PKG/bin/devmoji" ∧
      getBinaryPathCjs "darwin" "arm64"
        (fun r => r == "@loukotal/devmoji-rs-darwin-arm64")
        (fun _ => "PKG") = none ∧
      esmShim (some "BIN") ["node", "cli"] (fun _ _ => ChildOutcome.signaled) ≠
        cjsShim (some "BIN") ["node", "cli"] (fun _ _ => ChildOutcome.signaled) := by
  refine ⟨by decide, by decide, by decide⟩

/-- C9 (amended): the ESM and CJS shim variants are not equivalent in
general — they query scoped versus unscoped package names, only the ESM
variant has a local-binary fallback, and they exit differently on a
signal-killed child. They do agree whenever package resolution and package
directories treat each scoped name exactly like its unscoped counterpart
and the local fallback binary is absent, and their exit codes agree for
every numeric child status and for resolution failure. -/
theorem shims_agree (platform arch : String) (resolvable : String → Bool)
    (pkgDir : String → String) (dirName : String)
    (hres : ∀ k, resolvable ("@loukotal/" ++ k) = resolvable k)
    (hdir : ∀ k, pkgDir ("@loukotal/" ++ k) = pkgDir k) :
    getBinaryPathEsm platform arch resolvable pkgDir false dirName =
        getBinaryPathCjs platform arch resolvable pkgDir ∧
      (∀ n, esmCatchExit (JsStatus.num n) = cjsCatchExit (JsStatus.num n)) ∧
      esmCatchExit JsStatus.undef = cjsCatchExit JsStatus.undef := by
  have htr : ∀ pkg bn, tryResolve resolvable pkgDir ("@loukotal/" ++ pkg) bn =
      tryResolve resolvable pkgDir pkg bn := by
    intro pkg bn
    unfold tryResolve
    rw [hres, hdir]
  have hcl : ∀ bn cs, tryCandidateList platformsEsm resolvable pkgDir bn cs =
      tryCandidateList platformsCjs resolvable pkgDir bn cs := by
    intro bn cs
    induction cs with
    | nil => rfl
    | cons c rest ih =>
      simp only [tryCandidateList]
      rw [lookupPlatform_scoped c]
      cases h0 : lookupPlatform platformsCjs c with
      | none =>
        simp only [Option.map_none']
        exact ih
      | some pkg =>
        simp only [Option.map_some']
        rw [htr pkg bn]
        cases h1 : tryResolve resolvable pkgDir pkg bn with
        | none =>
          simp only []
          exact ih
        | some p => rfl
  refine ⟨?_, fun n => rfl, rfl⟩
  unfold getBinaryPathEsm getBinaryPathCjs
  by_cases hp : (platform == "linux") = true
  · simp only [hp, if_true, hcl]
    cases h0 : tryCandidateList platformsCjs resolvable pkgDir
        (if platform == "win32" then "devmoji.exe" else "devmoji")
        [platform ++ "-" ++ arch ++ "-musl", platform ++ "-" ++ arch ++ "-gnu"] with
    | none => simp [h0]
    | some p => simp [h0]
  · have hp' : (platform == "linux") = false := Bool.eq_false_iff.mpr hp
    simp only [hp', Bool.false_eq_true, if_false]
    rw [lookupPlatform_scoped]
    cases h0 : lookupPlatform platformsCjs (platform ++ "-" ++ arch) with
    | none => simp [h0]
    | some pkg =>
      simp only [Option.map_some']
      rw [htr]
      cases h1 : tryResolve resolvable pkgDir pkg
          (if platform == "win32" then "devmoji.exe" else "devmoji") with
      | none => simp [h1]
      | some p => simp [h1]

theorem shims_agree_witness :
    getBinaryPathEsm "darwin" "arm64" (fun _ => true) (fun _ => "PKG") false "DIR" =
        getBinaryPathCjs "darwin" "arm64" (fun _ => true) (fun _ => "PKG") ∧
      (∀ n, esmCatchExit (JsStatus.num n) = cjsCatchExit (JsStatus.num n)) ∧
      esmCatchExit JsStatus.undef = cjsCatchExit JsStatus.undef :=
  shims_agree "darwin" "arm64" (fun _ => true) (fun _ => "PKG") "DIR"
    (fun _ => rfl) (fun _ => rfl)

example : parseHeader "feat: add login".toList =
    some ⟨"feat".toList, none, false, "add login".toList⟩ := by decide

example : parseHeader "feat(api)!: x".toList =
    some ⟨"feat".toList, some "api".toList, true, "x".toList⟩ := by decide

example : parseHeader "no colon here".toList = none := by decide

example : parseHeader "feat:no space".toList = none := by decide

example : rewrite [⟨"feat".toList, some "✨".toList, none⟩] "feat: add login".toList =
    "feat: ✨ add login".toList := by decide

example : rewrite [⟨"feat".toList, some "✨".toList, none⟩] "feat: ✨ add login".toList =
    "feat: ✨ add login".toList := by decide

example : rewrite (resolveTable (mergeConfig builtinConfig)) (str "feat: add login") =
    str "feat: ✨ add login" := by decide

example : rewrite (resolveTable (mergeConfig
      ⟨[str "wip"],
       [⟨str "fix", some (str "saluting_face"), none, none⟩,
        ⟨str "wip", none, some (str "construction"), some (str "work in progress")⟩]⟩))
    (str "wip: start feature") = str "wip: 🚧 start feature" := by decide

example : rewrite (resolveTable (mergeConfig
      ⟨[str "wip"],
       [⟨str "fix", some (str "saluting_face"), none, none⟩,
        ⟨str "wip", none, some (str "construction"), some (str "work in progress")⟩]⟩))
    (str "fix: correct bug") = str "fix: 🫡 correct bug" := by decide

example : rewrite (resolveTable (mergeConfig builtinConfig)) (str "no colon here") =
    str "no colon here" := by decide

end Devmoji
